import Mathlib

/-!
# Verification of `ExcelUnprotector.py`

A shallow embedding of the core of `ExcelUnprotector.py`: the sheet-protection
stripper (`process_sheet`), the per-file pipeline (`remove_sheet_protection`),
the file-level scheduler (`unlock_excel_sheets`) and the output-path
derivation (`file_path.replace('.xls', '_unprotected.xls')`).

XML documents are modelled as trees of namespace-qualified elements (text and
attributes play no role in any of the claims).  The filesystem facts the
pipeline consults (file exists, archive readable, `xl/worksheets` present,
each sheet's parse outcome, faults while packing) are modelled as an explicit
`World` value; the pipeline is a pure function of that world.  Concurrency is
modelled by its observable outcome: each worker task is a pure function of its
own unit, results are collected one per unit, and ordering is that of
submission (the source guarantees no ordering, only completeness).
-/

namespace ExcelUnprotector

/-- An XML element: a namespace URI, a local tag name, and child elements. -/
inductive Xml where
  | elem (ns : String) (tag : String) (children : List Xml)

/-- The spreadsheet markup namespace used in
`root.find('.//{http://schemas.openxmlformats.org/spreadsheetml/2006/main}sheetProtection')`. -/
def ssNs : String := "http://schemas.openxmlformats.org/spreadsheetml/2006/main"

/-- Whether an element is a `sheetProtection` element qualified by the
spreadsheet markup namespace. -/
def isProtection : Xml → Bool
  | .elem ns tag _ => ns == ssNs && tag == "sheetProtection"

/-- Searches a forest in document order for the first `sheetProtection`
element and removes it (with its whole subtree), exactly as
`root.find('.//{ns}sheetProtection')` followed by
`sheet_protection.getparent().remove(sheet_protection)` does; returns the
modified forest and whether an element was removed. -/
def removeFirstF : List Xml → List Xml × Bool
  | [] => ([], false)
  | .elem ns tag cs :: ts =>
    if isProtection (.elem ns tag cs) then (ts, true)
    else
      match removeFirstF cs with
      | (cs', true) => (.elem ns tag cs' :: ts, true)
      | (_, false) =>
        match removeFirstF ts with
        | (ts', b) => (.elem ns tag cs :: ts', b)

/-- Number of `sheetProtection` elements (in the spreadsheet namespace)
occurring anywhere in a forest. -/
def protCountF : List Xml → Nat
  | [] => 0
  | .elem ns tag cs :: ts =>
    (if isProtection (.elem ns tag cs) then 1 else 0) + protCountF cs + protCountF ts

/-- Number of `sheetProtection` descendants of a sheet document's root
(`find('.//...')` searches proper descendants of the root). -/
def sheetProtCount : Xml → Nat
  | .elem _ _ cs => protCountF cs

/-- The tree transformation of `process_sheet` on a successfully parsed sheet
document: remove the first `sheetProtection` descendant of the root, if any,
and report whether one was removed. -/
def stripSheet : Xml → Xml × Bool
  | .elem ns tag cs =>
    match removeFirstF cs with
    | (cs', b) => (.elem ns tag cs', b)

/-- `Detach ts ts'` holds when `ts'` is obtained from `ts` by deleting exactly
one subtree whose root is a namespace-qualified `sheetProtection` element, and
nothing else: every other node keeps its label, its children and its position. -/
inductive Detach : List Xml → List Xml → Prop where
  | here (p : Xml) (ts : List Xml) : isProtection p = true → Detach (p :: ts) ts
  | inside (ns tag : String) (cs cs' ts : List Xml) :
      Detach cs cs' → Detach (.elem ns tag cs :: ts) (.elem ns tag cs' :: ts)
  | tail (t : Xml) (ts ts' : List Xml) :
      Detach ts ts' → Detach (t :: ts) (t :: ts')

/-- `DetachDoc d d'` holds when document `d'` is document `d` with exactly one
protection subtree detached from somewhere below the root and nothing else
changed (same root element, all other nodes untouched). -/
def DetachDoc (d d' : Xml) : Prop :=
  match d, d' with
  | .elem ns tag cs, .elem ns' tag' cs' => ns = ns' ∧ tag = tag' ∧ Detach cs cs'

/-!
## Output-path derivation

`remove_sheet_protection` computes
`output_file = file_path.replace('.xls', '_unprotected.xls')`: Python's
`str.replace` substitutes every non-overlapping occurrence of `'.xls'`,
scanning left to right.
-/

/-- The replacement text `'_unprotected.xls'` as a character list. -/
def unprotTok : List Char :=
  ['_', 'u', 'n', 'p', 'r', 'o', 't', 'e', 'c', 't', 'e', 'd', '.', 'x', 'l', 's']

/-- Python's `file_path.replace('.xls', '_unprotected.xls')` on a character
list: every non-overlapping occurrence of `'.xls'`, scanning left to right,
is replaced. -/
def replaceXls : List Char → List Char
  | '.' :: 'x' :: 'l' :: 's' :: rest => unprotTok ++ replaceXls rest
  | c :: cs => c :: replaceXls cs
  | [] => []

/-- Whether a character list contains an occurrence of `'.xls'`. -/
def containsXls : List Char → Bool
  | '.' :: 'x' :: 'l' :: 's' :: _ => true
  | _ :: cs => containsXls cs
  | [] => false

/-- The output path computed at the start of `remove_sheet_protection`:
`file_path.replace('.xls', '_unprotected.xls')`. -/
def output_file (p : String) : String := String.mk (replaceXls p.data)

/-- The extension filter `path.endswith(('.xls', '.xlsx', '.xlsm'))` used by
`unlock_excel_sheets`. -/
def hasExcelExt (p : String) : Bool :=
  List.isSuffixOf ".xls".data p.data || List.isSuffixOf ".xlsx".data p.data
    || List.isSuffixOf ".xlsm".data p.data

/-!
## The per-file pipeline `remove_sheet_protection`

The pipeline is a pure function of a `World`: the facts about the filesystem
and archive it consults.  Each sheet XML file in `xl/worksheets` is given by
its parse outcome (`etree.parse` may succeed, raise `XMLSyntaxError`, or any
other exception may occur).
-/

/-- The parse outcome of one sheet XML file in `xl/worksheets`. -/
inductive SheetSrc where
  | parsed (doc : Xml)
  | malformed
  | fault

/-- The observable outcome of `process_sheet` on one sheet file: either the
tree written back by `tree.write(...)` together with whether the protection
element was removed (the condition of the `Removed sheet protection` debug
log), or a logged parse error (`except etree.XMLSyntaxError`) or a logged
unexpected error (`except Exception`). -/
inductive SheetResult where
  | ok (doc : Xml) (removed : Bool)
  | errParse
  | errOther

/-- Whether a sheet result is one of the two logged failure outcomes. -/
def SheetResult.isFailure : SheetResult → Bool
  | .ok _ _ => false
  | .errParse => true
  | .errOther => true

/-- `process_sheet` on one sheet file.  A parsed document has its first
`sheetProtection` descendant removed and is written back; both exception
paths are caught inside `process_sheet` and logged, so a failure never
escapes to the executor. -/
def process_sheet : SheetSrc → SheetResult
  | .parsed d => .ok (stripSheet d).1 (stripSheet d).2
  | .malformed => .errParse
  | .fault => .errOther

/-- The sheet-level scheduler: one `process_sheet` task per listed sheet
file, one result per task (`as_completed` imposes no ordering; completeness
is what the code guarantees, so results are collected in submission order). -/
def process_sheets (sheets : List SheetSrc) : List SheetResult :=
  sheets.map process_sheet

/-- The error kinds of the three `except` clauses of
`remove_sheet_protection`. -/
inductive ErrKind where
  | notFound
  | badZip
  | unexpected

/-- The facts about the filesystem and archive that one run of
`remove_sheet_protection` consults. -/
structure World where
  /-- `os.path.exists(file_path)` -/
  fileExists : Bool
  /-- the archive opens and extracts without `zipfile.BadZipFile` -/
  zipOk : Bool
  /-- the extracted archive has an `xl/worksheets` directory, so
  `os.listdir(worksheets_dir)` does not raise `FileNotFoundError` -/
  worksheetsDirExists : Bool
  /-- parse outcomes of the `.xml` entries of `xl/worksheets` -/
  sheets : List SheetSrc
  /-- an unexpected fault while writing the output archive -/
  packFault : Bool

/-- Everything observable about one run of `remove_sheet_protection`:
its return value, whether the temporary workspace is still on disk at the
end, the error-log entries of its `except` clauses, and the per-sheet
results collected by the sheet-level scheduler. -/
structure RunTrace where
  output : Option String
  tmpExistsAfter : Bool
  errors : List ErrKind
  sheetResults : List SheetResult

/-- The `finally` clause:
`if os.path.exists(tmp_dir): shutil.rmtree(tmp_dir)`.  Takes whether the
workspace exists when the clause runs and returns whether it exists after. -/
def runFinalizer (tmpExists : Bool) : Bool :=
  if tmpExists then false else tmpExists

/-- The per-file pipeline `remove_sheet_protection(file_path)` over a world
`w`: create the workspace (`tempfile.mkdtemp()`), derive the output path,
then try: existence check, extraction, sheet processing, repacking — each
`raise` lands in the matching `except` clause, which logs one error and falls
through; the `finally` clause always runs.  The body never deletes the
workspace, so the workspace still exists whenever `finally` runs. -/
def remove_sheet_protection (w : World) (filePath : String) : RunTrace :=
  let tmpExists := true
  let out := output_file filePath
  let sheetResults :=
    if w.fileExists && w.zipOk && w.worksheetsDirExists then
      process_sheets w.sheets
    else []
  let body : Except ErrKind String :=
    if w.fileExists = false then .error .notFound
    else if w.zipOk = false then .error .badZip
    else if w.worksheetsDirExists = false then .error .notFound
    else if w.packFault then .error .unexpected
    else .ok out
  match body with
  | .ok o =>
      { output := some o, tmpExistsAfter := runFinalizer tmpExists,
        errors := [], sheetResults := sheetResults }
  | .error k =>
      { output := none, tmpExistsAfter := runFinalizer tmpExists,
        errors := [k], sheetResults := sheetResults }

/-!
## The file-level scheduler `unlock_excel_sheets`

The input path names either an existing file, an existing directory (a tree
of named entries, each file carrying the world its own pipeline run will
see), or nothing.
-/

/-- A filesystem entry: a file (with the world its pipeline run sees) or a
directory of entries. -/
inductive Entry where
  | file (name : String) (w : World)
  | dir (name : String) (children : List Entry)

/-- The source's fused walk-and-filter over a directory:
`for root, _, files in os.walk(...)`, keeping exactly the files whose name
ends in a recognized extension, joined to their directory path. -/
def collectExcel (pfx : String) : List Entry → List (String × World)
  | [] => []
  | .file n w :: es =>
      (if hasExcelExt n then [(pfx ++ n, w)] else []) ++ collectExcel pfx es
  | .dir n cs :: es => collectExcel (pfx ++ n ++ "/") cs ++ collectExcel pfx es

/-- The unfiltered recursive walk: every file under the directory, as
(joined path, base name, world).  Used to state what the fused loop above
must select. -/
def walkAll (pfx : String) : List Entry → List (String × String × World)
  | [] => []
  | .file n w :: es => (pfx ++ n, n, w) :: walkAll pfx es
  | .dir n cs :: es => walkAll (pfx ++ n ++ "/") cs ++ walkAll pfx es

/-- Outcome of input expansion: a list of file units to schedule, or the
`Invalid input path` error (which contributes no unit). -/
inductive ExpandResult where
  | units (us : List (String × World))
  | invalidInput

/-- Input expansion of `unlock_excel_sheets`: an existing file whose path
ends in a recognized extension is one unit; an existing directory is walked
recursively; anything else logs `Invalid input path` and returns `None`. -/
def expand (inputPath : String) (fs : Option Entry) : ExpandResult :=
  match fs with
  | some (.file _ w) =>
      if hasExcelExt inputPath then .units [(inputPath, w)] else .invalidInput
  | some (.dir _ cs) => .units (collectExcel (inputPath ++ "/") cs)
  | none => .invalidInput

/-- The collection loop of `unlock_excel_sheets`: for each unit,
`list_outfile += future.result() + "\n"`.  When the unit's pipeline failed,
`future.result()` is `None` and the `+` raises `TypeError`, which the
`except Exception` clause catches and logs, leaving `list_outfile`
unchanged.  Returns the accumulated string and the number of logged
failures. -/
def unitStep (acc : String × Nat) (u : String × World) : String × Nat :=
  match (remove_sheet_protection u.2 u.1).output with
  | some o => (acc.1 ++ o ++ "\n", acc.2)
  | none => (acc.1, acc.2 + 1)

/-- The whole collection loop, started with an empty message and no logged
failures. -/
def processFileUnits (us : List (String × World)) : String × Nat :=
  us.foldl unitStep ("", 0)

/-- `unlock_excel_sheets(input_path)`: expand the input; on invalid input
return `None`; otherwise run the per-file pipeline over every unit and
return the accumulated message string. -/
def unlock_excel_sheets (inputPath : String) (fs : Option Entry) : Option String :=
  match expand inputPath fs with
  | .invalidInput => none
  | .units us => some (processFileUnits us).1

/-- The output paths of the units whose pipeline run succeeded. -/
def successOutputs (us : List (String × World)) : List String :=
  us.filterMap (fun u => (remove_sheet_protection u.2 u.1).output)

/-- One newline-terminated line per string. -/
def joinLines : List String → String
  | [] => ""
  | o :: os => o ++ "\n" ++ joinLines os

/-- The `removed` flag carried by a successful sheet result. -/
def removedFlag : SheetResult → Bool
  | .ok _ removed => removed
  | .errParse => false
  | .errOther => false

/-!
## Concrete fixtures used by the witnesses
-/

/-- A sheet document with one protection element among its descendants. -/
def protDoc : Xml :=
  .elem ssNs "worksheet" [.elem ssNs "sheetData" [], .elem ssNs "sheetProtection" []]

/-- A sheet document with no protection element. -/
def plainDoc : Xml := .elem ssNs "worksheet" [.elem ssNs "sheetData" []]

/-- A world in which every pipeline step succeeds. -/
def okWorld : World :=
  { fileExists := true, zipOk := true, worksheetsDirExists := true,
    sheets := [.parsed protDoc, .parsed plainDoc], packFault := false }

/-- A world whose archive does not open (`zipfile.BadZipFile`). -/
def badWorld : World :=
  { fileExists := true, zipOk := false, worksheetsDirExists := true,
    sheets := [], packFault := false }

/-- A world for a readable archive with no `xl/worksheets` directory. -/
def noDirWorld : World :=
  { fileExists := true, zipOk := true, worksheetsDirExists := false,
    sheets := [], packFault := false }

/-!
## Structure lemmas for the stripper
-/

/-- If the search reports no removal, the forest is returned unchanged. -/
theorem removeFirstF_of_not_found (ts : List Xml)
    (h : (removeFirstF ts).2 = false) : (removeFirstF ts).1 = ts := by
  induction ts using removeFirstF.induct with
  | case1 => simp [removeFirstF]
  | case2 ns tag cs ts hp =>
    simp [removeFirstF, hp] at h
  | case3 ns tag cs ts hp cs' hcs ih =>
    simp [removeFirstF, hp, hcs] at h
  | case4 ns tag cs ts hp c' hcs ts' b hts ih1 ih2 =>
    simp [removeFirstF, hp, hcs, hts] at h ⊢
    subst h
    simpa [hts] using ih2

/-- The search reports a removal exactly when the forest contains at least one
protection element. -/
theorem removeFirstF_found_iff (ts : List Xml) :
    (removeFirstF ts).2 = true ↔ 0 < protCountF ts := by
  induction ts using removeFirstF.induct with
  | case1 => simp [removeFirstF, protCountF]
  | case2 ns tag cs ts hp =>
    simp [removeFirstF, protCountF, hp]
  | case3 ns tag cs ts hp cs' hcs ih =>
    simp [removeFirstF, protCountF, hp, hcs]
    have := ih
    simp [hcs] at this
    omega
  | case4 ns tag cs ts hp c' hcs ts' b hts ih1 ih2 =>
    have h1 := ih1
    have h2 := ih2
    rw [hcs] at h1
    rw [hts] at h2
    simp at h1 h2
    simp [removeFirstF, protCountF, hp, hcs, hts]
    cases b with
    | false => simp at h2 ⊢; omega
    | true => simp at h2 ⊢; omega

/-- A forest containing at most one protection element contains none after the
removal pass. -/
theorem protCountF_removeFirstF (ts : List Xml) (h : protCountF ts ≤ 1) :
    protCountF (removeFirstF ts).1 = 0 := by
  induction ts using removeFirstF.induct with
  | case1 => simp [removeFirstF, protCountF]
  | case2 ns tag cs ts hp =>
    simp [removeFirstF, protCountF, hp] at h ⊢
    omega
  | case3 ns tag cs ts hp cs' hcs ih =>
    have hfound : (removeFirstF cs).2 = true := by rw [hcs]
    rw [removeFirstF_found_iff] at hfound
    simp [protCountF, hp] at h
    have hcs1 : protCountF cs ≤ 1 := by omega
    have hres := ih hcs1
    rw [hcs] at hres
    simp at hres
    have hp' : ¬ isProtection (.elem ns tag cs') = true := hp
    simp [removeFirstF, protCountF, hp, hp', hcs, hres]
    omega
  | case4 ns tag cs ts hp c' hcs ts' b hts ih1 ih2 =>
    have hnone : (removeFirstF cs).2 = false := by rw [hcs]
    have hcs0 : protCountF cs = 0 := by
      by_contra hne
      have hpos : 0 < protCountF cs := Nat.pos_of_ne_zero hne
      rw [← removeFirstF_found_iff] at hpos
      rw [hnone] at hpos
      simp at hpos
    simp [protCountF, hp, hcs0] at h
    have := ih2 (by omega)
    rw [hts] at this
    simp [removeFirstF, protCountF, hp, hcs, hts, hcs0, this]

/-- When the pass reports a removal, the output forest is the input forest
with exactly one protection subtree detached and nothing else changed. -/
theorem removeFirstF_detach (ts : List Xml) (h : (removeFirstF ts).2 = true) :
    Detach ts (removeFirstF ts).1 := by
  induction ts using removeFirstF.induct with
  | case1 => simp [removeFirstF] at h
  | case2 ns tag cs ts hp =>
    simp [removeFirstF, hp]
    exact Detach.here _ _ hp
  | case3 ns tag cs ts hp cs' hcs ih =>
    have := ih (by rw [hcs])
    rw [hcs] at this
    simp [removeFirstF, hp, hcs]
    exact Detach.inside _ _ _ _ _ this
  | case4 ns tag cs ts hp c' hcs ts' b hts ih1 ih2 =>
    rw [removeFirstF] at h ⊢
    simp [hp, hcs, hts] at h ⊢
    subst h
    have := ih2 (by rw [hts])
    rw [hts] at this
    exact Detach.tail _ _ _ this

/-- A sheet reported unmodified is returned exactly as parsed. -/
theorem stripSheet_of_not_found (d : Xml) (h : (stripSheet d).2 = false) :
    (stripSheet d).1 = d := by
  cases d with
  | elem ns tag cs =>
    have h2 : (removeFirstF cs).2 = false := by
      simpa [stripSheet] using h
    have h1 := removeFirstF_of_not_found cs h2
    simp [stripSheet]
    exact h1

/-- The `removed` outcome is `true` exactly when the parsed sheet has a
protection descendant. -/
theorem stripSheet_found_iff (d : Xml) :
    (stripSheet d).2 = true ↔ 0 < sheetProtCount d := by
  cases d with
  | elem ns tag cs =>
    simpa [stripSheet, sheetProtCount] using removeFirstF_found_iff cs

/-- A sheet with at most one protection descendant has none after stripping. -/
theorem sheetProtCount_stripSheet (d : Xml) (h : sheetProtCount d ≤ 1) :
    sheetProtCount (stripSheet d).1 = 0 := by
  cases d with
  | elem ns tag cs =>
    have := protCountF_removeFirstF cs (by simpa [sheetProtCount] using h)
    simpa [stripSheet, sheetProtCount] using this

/-- A sheet reported modified is the parsed sheet with exactly the protection
element detached; the rest of the tree is unaffected. -/
theorem stripSheet_detach (d : Xml) (h : (stripSheet d).2 = true) :
    DetachDoc d (stripSheet d).1 := by
  cases d with
  | elem ns tag cs =>
    have h2 : (removeFirstF cs).2 = true := by
      simpa [stripSheet] using h
    have := removeFirstF_detach cs h2
    simp [stripSheet, DetachDoc]
    exact this

/-!
## Lemmas about the output-path derivation
-/

/-- An occurrence of `'.xls'` at the front is replaced. -/
theorem replaceXls_match (rest : List Char) :
    replaceXls ('.' :: 'x' :: 'l' :: 's' :: rest) = unprotTok ++ replaceXls rest := by
  simp [replaceXls]

/-- A character that does not start an occurrence of `'.xls'` is copied. -/
theorem replaceXls_cons_ne (c : Char) (cs : List Char)
    (h : ¬ ∃ rest, c :: cs = '.' :: 'x' :: 'l' :: 's' :: rest) :
    replaceXls (c :: cs) = c :: replaceXls cs := by
  rw [replaceXls.eq_def]
  split
  · rename_i rest heq
    exact absurd ⟨rest, heq⟩ h
  · rename_i c2 cs2 hno heq
    injection heq with h1 h2
    subst h1; subst h2; rfl
  · rename_i heq
    simp at heq

/-- A list starting with `'.xls'` contains an occurrence. -/
theorem containsXls_match (rest : List Char) :
    containsXls ('.' :: 'x' :: 'l' :: 's' :: rest) = true := by
  simp [containsXls]

/-- A character that does not start an occurrence does not affect
containment. -/
theorem containsXls_cons_ne (c : Char) (cs : List Char)
    (h : ¬ ∃ rest, c :: cs = '.' :: 'x' :: 'l' :: 's' :: rest) :
    containsXls (c :: cs) = containsXls cs := by
  rw [containsXls.eq_def]
  split
  · rename_i rest heq
    exact absurd ⟨rest, heq⟩ h
  · rename_i c2 cs2 hno heq
    injection heq with h1 h2
    subst h1; subst h2; rfl
  · rename_i heq
    simp at heq

/-- Containment is inherited by the tail. -/
theorem containsXls_of_cons (c : Char) (cs : List Char)
    (h : containsXls (c :: cs) = false) : containsXls cs = false := by
  by_cases hm : ∃ rest, c :: cs = '.' :: 'x' :: 'l' :: 's' :: rest
  · obtain ⟨r, hr⟩ := hm
    rw [hr, containsXls_match] at h
    cases h
  · rwa [containsXls_cons_ne c cs hm] at h

/-- Appending `'.xls'` (followed by anything) to any list yields a list that
contains an occurrence. -/
theorem containsXls_append (a b : List Char) :
    containsXls (a ++ '.' :: 'x' :: 'l' :: 's' :: b) = true := by
  induction a with
  | nil => simpa using containsXls_match b
  | cons c a' ih =>
    rw [List.cons_append]
    by_cases hm : ∃ rest,
        c :: (a' ++ '.' :: 'x' :: 'l' :: 's' :: b) = '.' :: 'x' :: 'l' :: 's' :: rest
    · obtain ⟨r, heq⟩ := hm
      rw [heq, containsXls_match]
    · rw [containsXls_cons_ne _ _ hm]
      exact ih

/-- The scan walks over an occurrence-free stem unchanged and then replaces
the occurrence that follows it: the straddling cases are impossible because
no proper prefix of `'.xls'` is also a suffix of it. -/
theorem replaceXls_append (a b : List Char) (ha : containsXls a = false) :
    replaceXls (a ++ '.' :: 'x' :: 'l' :: 's' :: b) =
      a ++ unprotTok ++ replaceXls b := by
  induction a with
  | nil => simpa using replaceXls_match b
  | cons c a' ih =>
    have ha' : containsXls a' = false := containsXls_of_cons c a' ha
    have hnm : ¬ ∃ rest,
        c :: (a' ++ '.' :: 'x' :: 'l' :: 's' :: b) = '.' :: 'x' :: 'l' :: 's' :: rest := by
      rintro ⟨rest, heq⟩
      injection heq with h1 h2
      subst h1
      rcases a' with _ | ⟨d, _ | ⟨e, _ | ⟨f, r⟩⟩⟩
      · simp at h2
      · simp at h2
      · simp at h2
      · simp at h2
        obtain ⟨rfl, rfl, rfl, -⟩ := h2
        rw [containsXls_match] at ha
        cases ha
    rw [List.cons_append, replaceXls_cons_ne _ _ hnm, ih ha']
    simp

/-- The replacement never shortens the list. -/
theorem length_le_replaceXls (l : List Char) :
    l.length ≤ (replaceXls l).length := by
  induction l using replaceXls.induct with
  | case1 rest ih =>
    rw [replaceXls_match]
    simp [unprotTok]
    omega
  | case2 c cs hno ih =>
    have hnm : ¬ ∃ rest, c :: cs = '.' :: 'x' :: 'l' :: 's' :: rest := by
      rintro ⟨r, heq⟩
      injection heq with h1 h2
      exact hno r h1 h2
    rw [replaceXls_cons_ne _ _ hnm]
    simpa using ih
  | case3 => simp [replaceXls]

/-- The replacement strictly lengthens any list containing an occurrence. -/
theorem length_lt_replaceXls (l : List Char) (h : containsXls l = true) :
    l.length < (replaceXls l).length := by
  induction l using replaceXls.induct with
  | case1 rest ih =>
    rw [replaceXls_match]
    have := length_le_replaceXls rest
    simp [unprotTok]
    omega
  | case2 c cs hno ih =>
    have hnm : ¬ ∃ rest, c :: cs = '.' :: 'x' :: 'l' :: 's' :: rest := by
      rintro ⟨r, heq⟩
      injection heq with h1 h2
      exact hno r h1 h2
    rw [containsXls_cons_ne _ _ hnm] at h
    rw [replaceXls_cons_ne _ _ hnm]
    simpa using ih h
  | case3 => simp [containsXls] at h

/-- A path with a recognized spreadsheet extension contains `'.xls'`. -/
theorem containsXls_of_hasExcelExt (p : String) (h : hasExcelExt p = true) :
    containsXls p.data = true := by
  have hd : ∃ a b, p.data = a ++ '.' :: 'x' :: 'l' :: 's' :: b := by
    simp [hasExcelExt] at h
    rcases h with (⟨t, ht⟩ | ⟨t, ht⟩) | ⟨t, ht⟩
    · exact ⟨t, [], by simpa using ht.symm⟩
    · exact ⟨t, ['x'], by simpa using ht.symm⟩
    · exact ⟨t, ['m'], by simpa using ht.symm⟩
  obtain ⟨a, b, hab⟩ := hd
  rw [hab]
  exact containsXls_append a b

/-- For every recognized input path the derived output path differs from the
input path. -/
theorem output_file_ne (p : String) (h : hasExcelExt p = true) :
    output_file p ≠ p := by
  intro heq
  have hlt := length_lt_replaceXls p.data (containsXls_of_hasExcelExt p h)
  have hdata : (output_file p).data = p.data := congrArg String.data heq
  have : (replaceXls p.data).length = p.data.length := by
    have := congrArg List.length hdata
    simpa [output_file] using this
  omega

/-!
## Lemmas about the per-file pipeline
-/

/-- The run returns an output path exactly when every pipeline step
succeeds. -/
theorem run_output_isSome_iff (w : World) (p : String) :
    (remove_sheet_protection w p).output.isSome = true ↔
      w.fileExists = true ∧ w.zipOk = true ∧ w.worksheetsDirExists = true ∧
        w.packFault = false := by
  rcases w with ⟨fe, zo, wd, sh, pf⟩
  cases fe <;> cases zo <;> cases wd <;> cases pf <;>
    simp [remove_sheet_protection]

/-- On a successful run the returned path is the derived output path. -/
theorem run_output_of_success (w : World) (p : String)
    (hfe : w.fileExists = true) (hzo : w.zipOk = true)
    (hwd : w.worksheetsDirExists = true) (hpf : w.packFault = false) :
    (remove_sheet_protection w p).output = some (output_file p) := by
  rcases w with ⟨fe, zo, wd, sh, pf⟩
  simp only at hfe hzo hwd hpf
  subst hfe; subst hzo; subst hwd; subst hpf
  simp [remove_sheet_protection]

/-- Whenever extraction succeeded and the worksheets directory is listable,
the collected per-sheet results are those of the sheet-level scheduler,
whether or not repacking later faults. -/
theorem run_sheetResults (w : World) (p : String)
    (hfe : w.fileExists = true) (hzo : w.zipOk = true)
    (hwd : w.worksheetsDirExists = true) :
    (remove_sheet_protection w p).sheetResults = process_sheets w.sheets := by
  rcases w with ⟨fe, zo, wd, sh, pf⟩
  simp only at hfe hzo hwd
  subst hfe; subst hzo; subst hwd
  cases pf <;> simp [remove_sheet_protection]

/-!
## Claim theorems
-/

/-- C1: for every spreadsheet package of `N` sheet parts, `K` of which
contain a `sheetProtection` element (each sheet part containing it at most
once), a successful pipeline run produces the same `N` sheet parts, none of
which contains a namespace-qualified `sheetProtection` element, and in each
modified sheet document only that element is detached while the rest of the
tree is unaffected. -/
theorem C1_successful_run_strips_package (w : World) (p : String)
    (docs : List Xml)
    (hdocs : w.sheets = docs.map SheetSrc.parsed)
    (hone : ∀ d ∈ docs, sheetProtCount d ≤ 1)
    (hsucc : (remove_sheet_protection w p).output.isSome = true) :
    (remove_sheet_protection w p).sheetResults =
      docs.map (fun d => SheetResult.ok (stripSheet d).1 (stripSheet d).2) ∧
    (remove_sheet_protection w p).sheetResults.length = docs.length ∧
    (∀ d ∈ docs, sheetProtCount (stripSheet d).1 = 0) ∧
    (∀ d ∈ docs, (stripSheet d).2 = false → (stripSheet d).1 = d) ∧
    (∀ d ∈ docs, (stripSheet d).2 = true → DetachDoc d (stripSheet d).1) := by
  obtain ⟨hfe, hzo, hwd, hpf⟩ := (run_output_isSome_iff w p).1 hsucc
  have hres := run_sheetResults w p hfe hzo hwd
  rw [hdocs] at hres
  have hmap : process_sheets (docs.map SheetSrc.parsed) =
      docs.map (fun d => SheetResult.ok (stripSheet d).1 (stripSheet d).2) := by
    simp [process_sheets, List.map_map, Function.comp, process_sheet]
  refine ⟨hres.trans hmap, ?_, ?_, ?_, ?_⟩
  · rw [hres.trans hmap]
    simp
  · intro d hd
    exact sheetProtCount_stripSheet d (hone d hd)
  · intro d _ h
    exact stripSheet_of_not_found d h
  · intro d _ h
    exact stripSheet_detach d h

/-- Witness for C1 at a concrete two-sheet package, one sheet protected. -/
theorem C1_witness :
    (remove_sheet_protection okWorld "b.xlsx").sheetResults =
      [SheetResult.ok (stripSheet protDoc).1 (stripSheet protDoc).2,
       SheetResult.ok (stripSheet plainDoc).1 (stripSheet plainDoc).2] ∧
    sheetProtCount (stripSheet protDoc).1 = 0 := by
  have h := C1_successful_run_strips_package okWorld "b.xlsx" [protDoc, plainDoc]
    (by rfl)
    (by
      intro d hd
      simp at hd
      rcases hd with rfl | rfl
      · simp [protDoc, sheetProtCount, protCountF, isProtection]
      · simp [plainDoc, sheetProtCount, protCountF, isProtection])
    (by rfl)
  exact ⟨by simpa using h.1, h.2.2.1 protDoc (by simp)⟩

/-- C2: the `removed` outcome of the strip operation is `true` exactly when
a `sheetProtection` element was found and removed, and over a package the
number of `removed = true` results equals the number `K` of sheets containing
a protection element. -/
theorem C2_removed_flag_counts (docs : List Xml) :
    (∀ d ∈ docs,
      (removedFlag (process_sheet (.parsed d)) = true ↔ 0 < sheetProtCount d)) ∧
    (process_sheets (docs.map SheetSrc.parsed)).countP removedFlag =
      docs.countP (fun d => decide (0 < sheetProtCount d)) := by
  have hpt : ∀ d : Xml, removedFlag (process_sheet (.parsed d)) = (stripSheet d).2 := by
    intro d
    simp [process_sheet, removedFlag]
  have hval : ∀ d : Xml, (stripSheet d).2 = decide (0 < sheetProtCount d) := by
    intro d
    have hiff := stripSheet_found_iff d
    rcases hb : (stripSheet d).2 with _ | _
    · rw [hb] at hiff
      simp at hiff
      simp [hiff]
    · rw [hb] at hiff
      simp at hiff
      simp [hiff]
  constructor
  · intro d _
    rw [hpt d, hval d]
    simp
  · rw [process_sheets, List.map_map, List.countP_map]
    apply List.countP_congr
    intro d _
    simp only [Function.comp]
    rw [hpt d, hval d]

/-- Witness for C2: the concrete package has one protected sheet, and the
reported count is 1. -/
theorem C2_witness :
    removedFlag (process_sheet (.parsed protDoc)) = true ∧
    (process_sheets ([protDoc, plainDoc].map SheetSrc.parsed)).countP removedFlag
      = 1 := by
  constructor
  · rw [(C2_removed_flag_counts [protDoc, plainDoc]).1 protDoc (by simp)]
    simp [protDoc, sheetProtCount, protCountF, isProtection]
  · rw [(C2_removed_flag_counts [protDoc, plainDoc]).2]
    simp [protDoc, plainDoc, sheetProtCount, protCountF, isProtection]

/-- C3: the strip operation is idempotent — on the output of a previous strip
of a sheet part (which contains the protection element at most once), a
second strip reports `removed = false` and returns the same parsed tree. -/
theorem C3_strip_idempotent (d : Xml) (h : sheetProtCount d ≤ 1) :
    stripSheet (stripSheet d).1 = ((stripSheet d).1, false) := by
  have h0 : sheetProtCount (stripSheet d).1 = 0 := sheetProtCount_stripSheet d h
  have hflag : (stripSheet (stripSheet d).1).2 = false := by
    rcases hb : (stripSheet (stripSheet d).1).2 with _ | _
    · rfl
    · exfalso
      have := (stripSheet_found_iff (stripSheet d).1).1 hb
      omega
  have htree := stripSheet_of_not_found _ hflag
  exact Prod.ext htree hflag

/-- Witness for C3 at a concrete protected sheet. -/
theorem C3_witness :
    sheetProtCount protDoc ≤ 1 ∧
    stripSheet (stripSheet protDoc).1 = ((stripSheet protDoc).1, false) := by
  have h1 : sheetProtCount protDoc ≤ 1 := by
    simp [protDoc, sheetProtCount, protCountF, isProtection]
  exact ⟨h1, C3_strip_idempotent protDoc h1⟩

/-- C4: on every exit path of the per-file pipeline — success, reported error
(missing file, corrupt archive, missing worksheets listing), or a fault while
repacking — the temporary workspace no longer exists at the end of the run. -/
theorem C4_workspace_always_deleted (w : World) (p : String) :
    (remove_sheet_protection w p).tmpExistsAfter = false := by
  rcases w with ⟨fe, zo, wd, sh, pf⟩
  cases fe <;> cases zo <;> cases wd <;> cases pf <;>
    simp [remove_sheet_protection, runFinalizer]

/-- C9: a readable archive with no `xl/worksheets` directory makes the
worksheets listing raise; the failure is caught and logged as the
`FileNotFoundError` case, and no output package path is returned. -/
theorem C9_missing_worksheets_dir_fails (w : World) (p : String)
    (hfe : w.fileExists = true) (hzo : w.zipOk = true)
    (hwd : w.worksheetsDirExists = false) :
    (remove_sheet_protection w p).output = none ∧
    (remove_sheet_protection w p).errors = [ErrKind.notFound] := by
  rcases w with ⟨fe, zo, wd, sh, pf⟩
  simp only at hfe hzo hwd
  subst hfe; subst hzo; subst hwd
  cases pf <;> simp [remove_sheet_protection]

/-- Witness for C9 at a concrete world with a readable archive and no
worksheets directory. -/
theorem C9_witness :
    (remove_sheet_protection noDirWorld "a.xlsx").output = none ∧
    (remove_sheet_protection noDirWorld "a.xlsx").errors = [ErrKind.notFound] :=
  C9_missing_worksheets_dir_fails noDirWorld "a.xlsx" rfl rfl rfl

/-- C5: a sheet whose XML fails to parse, or that faults unexpectedly, yields
exactly one failure result for that sheet, and changing one sheet (in the
sheet list of a file, or one file unit in the file list) does not alter the
result of any other sheet or file: every unit's result depends only on that
unit. -/
theorem C5_sheet_failures_isolated :
    (∀ ss : List SheetSrc, (process_sheets ss).length = ss.length) ∧
    (∀ (ss : List SheetSrc) (i : Nat),
      (ss[i]? = some .malformed ∨ ss[i]? = some .fault) →
      ∃ r, (process_sheets ss)[i]? = some r ∧ r.isFailure = true) ∧
    (∀ (ss : List SheetSrc) (i : Nat) (x : SheetSrc) (j : Nat), j ≠ i →
      (process_sheets (ss.set i x))[j]? = (process_sheets ss)[j]?) ∧
    (∀ (us : List (String × World)) (i : Nat) (x : String × World) (j : Nat),
      j ≠ i →
      ((us.set i x).map (fun u => remove_sheet_protection u.2 u.1))[j]? =
        (us.map (fun u => remove_sheet_protection u.2 u.1))[j]?) := by
  refine ⟨?_, ?_, ?_, ?_⟩
  · intro ss
    simp [process_sheets]
  · intro ss i h
    rcases h with h | h
    · exact ⟨.errParse,
        by rw [process_sheets, List.getElem?_map, h]; rfl, rfl⟩
    · exact ⟨.errOther,
        by rw [process_sheets, List.getElem?_map, h]; rfl, rfl⟩
  · intro ss i x j hj
    rw [process_sheets, process_sheets, List.getElem?_map, List.getElem?_map,
      List.getElem?_set_ne (Ne.symm hj)]
  · intro us i x j hj
    rw [List.getElem?_map, List.getElem?_map, List.getElem?_set_ne (Ne.symm hj)]

/-- Witness for C5 at a concrete malformed sheet and concrete file units. -/
theorem C5_witness :
    (process_sheets [.malformed, .parsed plainDoc]).length = 2 ∧
    (∃ r, (process_sheets [SheetSrc.malformed, .parsed plainDoc])[0]? = some r ∧
      r.isFailure = true) ∧
    (process_sheets ([SheetSrc.malformed, .parsed plainDoc].set 0
        (.parsed protDoc)))[1]? =
      (process_sheets [SheetSrc.malformed, .parsed plainDoc])[1]? ∧
    (([("a.xls", badWorld), ("b.xls", okWorld)].set 0 ("c.xls", okWorld)).map
        (fun u => remove_sheet_protection u.2 u.1))[1]? =
      ([("a.xls", badWorld), ("b.xls", okWorld)].map
        (fun u => remove_sheet_protection u.2 u.1))[1]? :=
  ⟨C5_sheet_failures_isolated.1 _,
   C5_sheet_failures_isolated.2.1 _ 0 (Or.inl rfl),
   C5_sheet_failures_isolated.2.2.1 _ 0 _ 1 (by decide),
   C5_sheet_failures_isolated.2.2.2 _ 0 _ 1 (by decide)⟩

/-- Starting the collection loop from any accumulator appends the lines of
the successful units and counts one logged failure per failed unit. -/
theorem foldl_unitStep_acc (us : List (String × World)) (s : String) (n : Nat) :
    us.foldl unitStep (s, n) =
      (s ++ joinLines (successOutputs us),
        n + (us.length - (successOutputs us).length)) := by
  induction us generalizing s n with
  | nil => simp [successOutputs, joinLines]
  | cons u us' ih =>
    rcases h : (remove_sheet_protection u.2 u.1).output with _ | o
    · have hs : successOutputs (u :: us') = successOutputs us' := by
        simp [successOutputs, h]
      have hstep : unitStep (s, n) u = (s, n + 1) := by
        simp [unitStep, h]
      rw [List.foldl_cons, hstep, ih, hs]
      have hle : (successOutputs us').length ≤ us'.length :=
        List.length_filterMap_le _ _
      simp only [List.length_cons, Prod.mk.injEq]
      exact ⟨by trivial, by omega⟩
    · have hs : successOutputs (u :: us') = o :: successOutputs us' := by
        simp [successOutputs, h]
      have hstep : unitStep (s, n) u = (s ++ o ++ "\n", n) := by
        simp [unitStep, h]
      rw [List.foldl_cons, hstep, ih, hs]
      simp only [joinLines, List.length_cons, Prod.mk.injEq]
      constructor
      · simp [String.append_assoc]
      · omega

/-- The collection loop returns the newline-joined successful output paths
and one logged failure per failed unit. -/
theorem processFileUnits_spec (us : List (String × World)) :
    (processFileUnits us).1 = joinLines (successOutputs us) ∧
    (processFileUnits us).2 = us.length - (successOutputs us).length := by
  have h := foldl_unitStep_acc us "" 0
  constructor
  · rw [processFileUnits, h]
    exact String.empty_append _
  · rw [processFileUnits, h]
    omega

/-- C6 counterexample: one recognized file whose archive does not open.  One
unit is submitted and fails, yet the returned collection is `some ""` — it
contains no record (neither output path nor error) for the failed unit; the
failure is only logged. -/
theorem C6_counterexample :
    expand "a.xls" (some (.file "a.xls" badWorld)) =
      .units [("a.xls", badWorld)] ∧
    (remove_sheet_protection badWorld "a.xls").output = none ∧
    unlock_excel_sheets "a.xls" (some (.file "a.xls" badWorld)) = some "" :=
  ⟨rfl, rfl, rfl⟩

/-- C6 (amended): the returned collection contains one newline-terminated
output path per successful unit, in order; failed units contribute nothing to
the returned string and are instead logged, one error per failed unit, so
successes plus logged failures account for every submitted unit. -/
theorem C6_returned_message_amended (inputPath : String) (fs : Option Entry)
    (us : List (String × World)) (h : expand inputPath fs = .units us) :
    unlock_excel_sheets inputPath fs = some (joinLines (successOutputs us)) ∧
    (successOutputs us).length + (processFileUnits us).2 = us.length := by
  have hspec := processFileUnits_spec us
  constructor
  · rw [unlock_excel_sheets, h]
    show some (processFileUnits us).1 = _
    rw [hspec.1]
  · rw [hspec.2]
    have hle : (successOutputs us).length ≤ us.length :=
      List.length_filterMap_le _ _
    omega

/-- Witness for C6 (amended) at a concrete single-unit input. -/
theorem C6_witness :
    unlock_excel_sheets "b.xlsx" (some (.file "b.xlsx" okWorld)) =
      some (joinLines (successOutputs [("b.xlsx", okWorld)])) ∧
    (successOutputs [("b.xlsx", okWorld)]).length +
      (processFileUnits [("b.xlsx", okWorld)]).2 = 1 := by
  have h := C6_returned_message_amended "b.xlsx" (some (.file "b.xlsx" okWorld))
    [("b.xlsx", okWorld)] rfl
  exact ⟨h.1, h.2⟩

/-- C7 counterexample: `'a.xls.xlsx'` is a recognized input path, but because
the code replaces every occurrence of `'.xls'`, the output path is not the
path with `_unprotected` inserted before the extension. -/
theorem C7_counterexample :
    hasExcelExt "a.xls.xlsx" = true ∧
    output_file "a.xls.xlsx" = "a_unprotected.xls_unprotected.xlsx" ∧
    output_file "a.xls.xlsx" ≠ "a.xls_unprotected.xlsx" :=
  ⟨by decide, by decide, by decide⟩

/-- C7 (amended): for recognized input paths whose only occurrence of
`'.xls'` is the one starting the final extension, the output path is the
input path with `_unprotected` inserted immediately before the extension;
in general every occurrence of `'.xls'` is replaced by `'_unprotected.xls'`.
For every recognized input path (no restriction) the output path differs
from the input path. -/
theorem C7_output_path_amended :
    (∀ stem ext2 : List Char, containsXls stem = false →
      (ext2 = [] ∨ ext2 = ['x'] ∨ ext2 = ['m']) →
      output_file (String.mk (stem ++ '.' :: 'x' :: 'l' :: 's' :: ext2)) =
        String.mk (stem ++ unprotTok ++ ext2)) ∧
    (∀ p : String, hasExcelExt p = true → output_file p ≠ p) := by
  constructor
  · intro stem ext2 hstem hext
    have hrepl := replaceXls_append stem ext2 hstem
    have hext2 : replaceXls ext2 = ext2 := by
      rcases hext with rfl | rfl | rfl <;> decide
    show String.mk (replaceXls (stem ++ '.' :: 'x' :: 'l' :: 's' :: ext2)) = _
    rw [hrepl, hext2]
  · exact output_file_ne

/-- Witness for C7 (amended) at concrete paths. -/
theorem C7_witness :
    output_file "book.xlsx" = "book_unprotected.xlsx" ∧
    output_file "a.xlsx" ≠ "a.xlsx" := by
  constructor
  · have h := C7_output_path_amended.1 ['b', 'o', 'o', 'k'] ['x'] (by decide)
      (Or.inr (Or.inl rfl))
    have e1 : String.mk (['b', 'o', 'o', 'k'] ++ '.' :: 'x' :: 'l' :: 's' :: ['x']) =
        "book.xlsx" := by decide
    have e2 : String.mk (['b', 'o', 'o', 'k'] ++ unprotTok ++ ['x']) =
        "book_unprotected.xlsx" := by decide
    rw [e1, e2] at h
    exact h
  · exact C7_output_path_amended.2 "a.xlsx" (by decide)

/-- The source's fused walk-and-filter selects exactly the recognized files
of the unfiltered recursive walk. -/
theorem collectExcel_eq_filter (pfx : String) (es : List Entry) :
    collectExcel pfx es =
      ((walkAll pfx es).filter (fun t => hasExcelExt t.2.1)).map
        (fun t => (t.1, t.2.2)) := by
  induction pfx, es using collectExcel.induct with
  | case1 pfx => simp [collectExcel, walkAll]
  | case2 pfx n w es ih =>
    by_cases hx : hasExcelExt n = true
    · simp [collectExcel, walkAll, hx, ih]
    · simp only [Bool.not_eq_true] at hx
      simp [collectExcel, walkAll, hx, ih]
  | case3 pfx n cs es ih1 ih2 =>
    simp [collectExcel, walkAll, List.filter_append, ih1, ih2]

/-- C8: expansion yields one unit for an existing file with a recognized
extension; an `InvalidInput` error and no units for an existing file without
one or for a missing path; and for a directory exactly the recursively walked
files with recognized names (`M` units for `M` recognized files, the others
ignored without error). -/
theorem C8_expansion :
    (∀ (p n : String) (w : World), hasExcelExt p = true →
      expand p (some (.file n w)) = .units [(p, w)]) ∧
    (∀ (p n : String) (w : World), hasExcelExt p = false →
      expand p (some (.file n w)) = .invalidInput) ∧
    (∀ p : String, expand p none = .invalidInput) ∧
    (∀ (p n : String) (cs : List Entry),
      expand p (some (.dir n cs)) =
        .units (((walkAll (p ++ "/") cs).filter
          (fun t => hasExcelExt t.2.1)).map (fun t => (t.1, t.2.2)))) ∧
    (∀ (p : String) (cs : List Entry),
      (collectExcel (p ++ "/") cs).length =
        (walkAll (p ++ "/") cs).countP (fun t => hasExcelExt t.2.1)) := by
  refine ⟨?_, ?_, ?_, ?_, ?_⟩
  · intro p n w h
    simp [expand, h]
  · intro p n w h
    simp [expand, h]
  · intro p
    rfl
  · intro p n cs
    simp [expand, collectExcel_eq_filter]
  · intro p cs
    rw [collectExcel_eq_filter]
    simp [(List.countP_eq_length_filter _ _).symm]

/-- A concrete directory tree: two recognized spreadsheet files (one nested)
and two non-matching files. -/
def sampleTree : List Entry :=
  [.file "a.xlsx" okWorld, .file "notes.txt" okWorld,
   .dir "sub" [.file "b.xlsm" badWorld, .file "c.doc" okWorld]]

/-- Witness for C8 at concrete paths and a concrete directory tree. -/
theorem C8_witness :
    expand "f.xlsm" (some (.file "f.xlsm" okWorld)) =
      .units [("f.xlsm", okWorld)] ∧
    expand "f.txt" (some (.file "f.txt" okWorld)) = .invalidInput ∧
    expand "f" none = .invalidInput ∧
    expand "root" (some (.dir "root" sampleTree)) =
      .units (((walkAll ("root" ++ "/") sampleTree).filter
        (fun t => hasExcelExt t.2.1)).map (fun t => (t.1, t.2.2))) ∧
    (collectExcel ("root" ++ "/") sampleTree).length = 2 := by
  refine ⟨C8_expansion.1 _ _ _ (by decide), C8_expansion.2.1 _ _ _ (by decide),
    C8_expansion.2.2.1 _, C8_expansion.2.2.2.1 _ _ _, ?_⟩
  rw [C8_expansion.2.2.2.2 "root" sampleTree]
  have e1 : hasExcelExt "a.xlsx" = true := by decide
  have e2 : hasExcelExt "notes.txt" = false := by decide
  have e3 : hasExcelExt "b.xlsm" = true := by decide
  have e4 : hasExcelExt "c.doc" = false := by decide
  simp [walkAll, sampleTree, List.countP_cons, e1, e2, e3, e4]

/-- C10: `unlock_excel_sheets` returns `none` when the input path is neither
an existing recognized spreadsheet file nor an existing directory, but
returns `some ""` for an existing directory with zero recognized spreadsheet
files; the two cases are distinguishable by the caller. -/
theorem C10_return_value_distinguishes :
    (∀ p : String, unlock_excel_sheets p none = none) ∧
    (∀ (p n : String) (w : World), hasExcelExt p = false →
      unlock_excel_sheets p (some (.file n w)) = none) ∧
    (∀ (p n : String) (cs : List Entry), collectExcel (p ++ "/") cs = [] →
      unlock_excel_sheets p (some (.dir n cs)) = some "") ∧
    some "" ≠ (none : Option String) := by
  refine ⟨?_, ?_, ?_, by simp⟩
  · intro p
    rfl
  · intro p n w h
    simp [unlock_excel_sheets, expand, h]
  · intro p n cs h
    simp [unlock_excel_sheets, expand, h, processFileUnits]

/-- Witness for C10 at concrete inputs: a missing path, an existing
non-spreadsheet file, and a directory with no recognized files. -/
theorem C10_witness :
    unlock_excel_sheets "x" none = none ∧
    unlock_excel_sheets "f.txt" (some (.file "f.txt" okWorld)) = none ∧
    unlock_excel_sheets "d" (some (.dir "d" [.file "n.txt" okWorld])) =
      some "" := by
  refine ⟨C10_return_value_distinguishes.1 "x",
    C10_return_value_distinguishes.2.1 _ _ _ (by decide),
    C10_return_value_distinguishes.2.2.1 "d" "d" _ ?_⟩
  have e : hasExcelExt "n.txt" = false := by decide
  simp [collectExcel, e]

end ExcelUnprotector
